import Mathlib

/-!
Verification development for the proxy-warmup email scheduler.

The TypeScript sources are shallowly embedded here:

* `createWarmupSchedule` (the while-loop schedule builder) becomes a
  fuel-indexed recursion `scheduleLoop`/`createWarmupSchedule`; `none` means
  the loop has not terminated within the given fuel.  JS numbers are `Int`,
  `Math.floor` of a division by a positive number is `Int.fdiv`.
* the week/day arithmetic (`getCurrentWeek`, the `setHours(24,0,0,0)`
  midnight computation) is embedded over epoch milliseconds in local time.
* `RecipientManager` (a JS `Set` plus its live iterator) becomes a list of
  distinct strings (insertion order, first occurrence kept) plus a cursor;
  a JS iterator `next()` that yields `undefined` is modelled as `none`.
* the `EmailWarmup` class becomes a state record, and the timer callbacks
  (`setInterval` tick, `setTimeout` rollover, the resolution of the awaited
  mailer promise) become events of a small-step semantics `step`.  The
  fields `mailerCalls` and `inFlight` are observational instrumentation
  recording invocations of the injected `sendEmailFunction` and mailer
  promises that have been started but have not resolved yet.
-/

namespace ProxyWarmup

/-! ### ScheduleBuilder: createWarmupSchedule

Source (src/unnamed/part_002, lines 351-372):
```
let week = 1; let currentEmailCount = startValue;
while (currentEmailCount <= targetEmails) {
  warmupSchedule[week] = currentEmailCount; week++; currentEmailCount += increment;
}
if (currentEmailCount - increment < targetEmails) warmupSchedule[week] = targetEmails;
```
The loop body is rendered as a fuel-indexed recursion that also returns the
final values of `week` and `currentEmailCount`. -/

def scheduleLoop (targetEmails increment : Int) :
    Nat → Int → Int → Option (List (Int × Int) × Int × Int)
  | 0, _, _ => none
  | fuel + 1, week, currentEmailCount =>
    if currentEmailCount ≤ targetEmails then
      match scheduleLoop targetEmails increment fuel (week + 1)
          (currentEmailCount + increment) with
      | none => none
      | some (entries, w, c) => some ((week, currentEmailCount) :: entries, w, c)
    else
      some ([], week, currentEmailCount)

def createWarmupSchedule (fuel : Nat) (startValue increment targetEmails : Int) :
    Option (List (Int × Int)) :=
  match scheduleLoop targetEmails increment fuel 1 startValue with
  | none => none
  | some (entries, week, currentEmailCount) =>
    if currentEmailCount - increment < targetEmails then
      some (entries ++ [(week, targetEmails)])
    else
      some entries

/-! ### Week and midnight arithmetic -/

def msPerDay : Int := 1000 * 60 * 60 * 24

/-- `getCurrentWeek` (src/unnamed/part_002 lines 119-124):
`diffDays = Math.floor((now - startDate) / 86400000)`, then
`Math.floor(diffDays / 7) + 1`.  `startMs` is `this.startDate.getTime()`
after the constructor normalized it to local midnight. -/
def getCurrentWeek (startMs nowMs : Int) : Int :=
  ((nowMs - startMs).fdiv msPerDay).fdiv 7 + 1

/-- Modelled from the spec: the week formula asserted by the spec sentence
"computes week = floor((now − startDate) / 1 day) + 1", stated here only to
be compared against the source function `getCurrentWeek`. -/
def claimedWeekFormula (startMs nowMs : Int) : Int :=
  (nowMs - startMs).fdiv msPerDay + 1

/-- `nextMidnight.setHours(24, 0, 0, 0)`: the upcoming local midnight
strictly after the day containing `nowMs` begins (epoch ms, local time). -/
def nextMidnightMs (nowMs : Int) : Int :=
  (nowMs.fdiv msPerDay + 1) * msPerDay

/-! ### RecipientManager (src/unnamed/part_002, lines 9-63) -/

/-- JS `Set.add` order: keep the first occurrence, append unseen elements. -/
def insertUnique (acc : List String) (x : String) : List String :=
  if x ∈ acc then acc else acc ++ [x]

/-- `new Set(recipients)`: deduplicate, keeping insertion order. -/
def setOfList (l : List String) : List String :=
  l.foldl insertUnique []

structure RecipientManager where
  recipients : List String
  /-- how many elements the live iterator has already yielded -/
  cursor : Nat
deriving DecidableEq, Repr

/-- The constructor: throws (here `none`) on an empty input array, otherwise
stores the deduplicated set and a fresh iterator. -/
def RecipientManager.make (recipients : List String) : Option RecipientManager :=
  if recipients.isEmpty then none
  else some { recipients := setOfList recipients, cursor := 0 }

/-- `getNextRecipient`: take the iterator's next value; when the iterator is
done, reset it and take the first value.  A fresh iterator over an empty set
is immediately done, so the JS method returns `undefined` (modelled `none`);
it does not throw. -/
def RecipientManager.getNextRecipient (m : RecipientManager) :
    Option String × RecipientManager :=
  match m.recipients[m.cursor]? with
  | some r => (some r, { m with cursor := m.cursor + 1 })
  | none =>
    match m.recipients with
    | [] => (none, { m with cursor := 0 })
    | r :: _ => (some r, { m with cursor := 1 })

/-- `removeRecipient`: delete from the set and reset the iterator. -/
def RecipientManager.removeRecipient (m : RecipientManager) (r : String) :
    RecipientManager :=
  { recipients := m.recipients.erase r, cursor := 0 }

/-- `addRecipient`: add to the set and reset the iterator. -/
def RecipientManager.addRecipient (m : RecipientManager) (r : String) :
    RecipientManager :=
  { recipients := insertUnique m.recipients r, cursor := 0 }

/-- Iterate `getNextRecipient` and record the values returned. -/
def runNext : RecipientManager → Nat → List (Option String)
  | _, 0 => []
  | m, n + 1 =>
    let p := m.getNextRecipient
    p.1 :: runNext p.2 n

/-! ### EmailWarmup scheduler (src/unnamed/part_002, lines 65-349) -/

/-- The repeating tick timer armed by `scheduleEmailsForToday`; its callback
closes over `emailsToSend`, and it repeats every `delayMs` milliseconds. -/
structure IntervalTimer where
  emailsToSend : Int
  delayMs : Int
deriving DecidableEq, Repr

structure EmailWarmup where
  warmupSchedule : List (Int × Int)
  /-- `this.startDate.getTime()`, normalized to local midnight -/
  startDate : Int
  emailIntervalId : Option IntervalTimer := none
  nextDayTimeoutId : Option Int := none
  dailyEmailCountSent : Nat := 0
  isRunning : Bool := false
  recipientManager : Option RecipientManager := none
  /-- ghost: number of `sendEmailFunction` invocations so far -/
  mailerCalls : Nat := 0
  /-- ghost: mailer promises started but not yet resolved -/
  inFlight : Nat := 0
deriving DecidableEq, Repr

/-- `Math.max(...Object.keys(this.warmupSchedule).map(Number))`; the
constructor rejects an empty schedule, so the `getD 0` default is inert. -/
def maxKey (sched : List (Int × Int)) : Int :=
  ((sched.map Prod.fst).max?).getD 0

/-- `getEmailsPerDay` (lines 130-137): `if (this.warmupSchedule[week])` is a
JS truthiness test, so a quota of `0` (like a missing week) falls through to
the maximum-key quota. -/
def getEmailsPerDay (sched : List (Int × Int)) (week : Int) : Int :=
  match sched.lookup week with
  | some q => if q = 0 then (sched.lookup (maxKey sched)).getD 0 else q
  | none => (sched.lookup (maxKey sched)).getD 0

/-- `scheduleNextDay` (lines 261-271): bail out when not running, otherwise
arm the one-shot rollover timeout for the ms remaining until midnight. -/
def EmailWarmup.scheduleNextDay (s : EmailWarmup) (nowMs : Int) : EmailWarmup :=
  if s.isRunning = false then s
  else { s with nextDayTimeoutId := some (nextMidnightMs nowMs - nowMs) }

/-- `scheduleEmailsForToday` (lines 216-256): reset the daily counter; on a
non-positive quota skip to the rollover; otherwise arm the repeating tick
timer with delay `max(floor(timeUntilMidnight / emailsToSend), 1000)`. -/
def EmailWarmup.scheduleEmailsForToday (s : EmailWarmup) (nowMs : Int) :
    EmailWarmup :=
  let emailsToSend := getEmailsPerDay s.warmupSchedule (getCurrentWeek s.startDate nowMs)
  let s1 : EmailWarmup := { s with dailyEmailCountSent := 0 }
  if emailsToSend ≤ 0 then s1.scheduleNextDay nowMs
  else
    let timeUntilMidnight := nextMidnightMs nowMs - nowMs
    let delayBetweenEmails := timeUntilMidnight.fdiv emailsToSend
    let effectiveDelay := max delayBetweenEmails 1000
    { s1 with emailIntervalId := some ⟨emailsToSend, effectiveDelay⟩ }

/-- `stop` (lines 198-210): return early when not running; otherwise clear
both timer handles and leave the running state. -/
def EmailWarmup.stop (s : EmailWarmup) : EmailWarmup :=
  if s.isRunning = false then s
  else { s with isRunning := false, emailIntervalId := none, nextDayTimeoutId := none }

inductive StartResult
  | ok (s : EmailWarmup)
  | exited
deriving DecidableEq, Repr

/-- `start` (lines 151-193).  The day-of-month values are
`this.startDate.getDate()` and `new Date().getDate()`, passed in because the
embedding does not model the civil calendar.  After the constructor's
`setHours(0,0,0,0)`, `this.startDate.getHours()` is `0 < 10`, so the
"morning" branch is always taken and `env.RECOMMENDED` alone decides the
`process.exit(0)`. -/
def EmailWarmup.start (s : EmailWarmup) (recommended : Bool)
    (startDayOfMonth nowDayOfMonth nowMs : Int) : StartResult :=
  if s.isRunning then StartResult.ok s
  else if s.recipientManager.isNone then StartResult.ok s
  else
    let s1 : EmailWarmup := { s with isRunning := true }
    if startDayOfMonth < nowDayOfMonth then StartResult.ok s1
    else if recommended then StartResult.exited
    else StartResult.ok (s1.scheduleEmailsForToday nowMs)

/-! ### Event-loop semantics

The scheduler suspends at timer boundaries and at the `await` of the mailer
promise.  Each resumption is one event:

* `tickFire now`: the platform fires the repeating interval callback (only
  possible while the interval handle is armed).  The callback first checks
  the quota captured by its closure; on completion it clears the interval
  and arms the rollover, otherwise it starts one `sendRandomEmail`, i.e.
  invokes the mailer (the counter is incremented only after the `await`).
* `sendComplete failed`: one awaited mailer promise settles.  A rejection is
  caught and logged inside `sendRandomEmail`, so in both cases control
  returns to the callback which runs `this.dailyEmailCountSent++`.
* `rolloverFire now`: the one-shot midnight timeout fires (only possible
  while armed) and re-enters `scheduleEmailsForToday`. -/

inductive Ev
  | tickFire (nowMs : Int)
  | sendComplete (failed : Bool)
  | rolloverFire (nowMs : Int)
deriving DecidableEq, Repr

def step (e : Ev) (s : EmailWarmup) : EmailWarmup :=
  match e with
  | Ev.tickFire nowMs =>
    match s.emailIntervalId with
    | none => s
    | some tc =>
      if (s.dailyEmailCountSent : Int) ≥ tc.emailsToSend then
        EmailWarmup.scheduleNextDay { s with emailIntervalId := none } nowMs
      else
        { s with mailerCalls := s.mailerCalls + 1, inFlight := s.inFlight + 1 }
  | Ev.sendComplete _ =>
    match s.inFlight with
    | 0 => s
    | n + 1 => { s with inFlight := n, dailyEmailCountSent := s.dailyEmailCountSent + 1 }
  | Ev.rolloverFire nowMs =>
    match s.nextDayTimeoutId with
    | none => s
    | some _ =>
      EmailWarmup.scheduleEmailsForToday { s with nextDayTimeoutId := none } nowMs

def run (evs : List Ev) (s : EmailWarmup) : EmailWarmup :=
  evs.foldl (fun acc e => step e acc) s

/-- `serialRun s evs` holds when every tick in the trace fires only while no
send is in flight: the serialized executions the spec asserts are the only
ones.  Node's `setInterval` does not itself enforce this. -/
def serialRun : EmailWarmup → List Ev → Bool
  | _, [] => true
  | s, e :: evs =>
    (match e with
     | Ev.tickFire _ => s.inFlight == 0
     | Ev.sendComplete _ => true
     | Ev.rolloverFire _ => false) && serialRun (step e s) evs

/-- A concrete mid-day state used to exercise `stop`: running, five-email
quota, both timers armed. -/
def stopDemo : EmailWarmup :=
  { warmupSchedule := [(1, 5)], startDate := 0,
    emailIntervalId := some ⟨5, 1000⟩, nextDayTimeoutId := some 1000,
    isRunning := true }

/-- A concrete state with one send in flight, used to exercise the
completion event. -/
def absorbDemo : EmailWarmup :=
  { warmupSchedule := [(1, 3)], startDate := 0,
    emailIntervalId := some ⟨3, 1000⟩, isRunning := true,
    mailerCalls := 1, inFlight := 1 }

/-- A concrete day-start state with a one-email quota interval armed,
used to exercise overlapping and serialized tick executions. -/
def overlapDemo : EmailWarmup :=
  { warmupSchedule := [(1, 1)], startDate := 0,
    emailIntervalId := some ⟨1, 1000⟩, isRunning := true }

/-- A concrete ready-but-not-started state: recipients loaded, no timer
armed, not running. -/
def readyDemo : EmailWarmup :=
  { warmupSchedule := [(1, 2)], startDate := 0,
    recipientManager := some ⟨["r"], 0⟩ }

/-- Invariant tying an armed interval to the day quota `q` it was armed
with: the closure quota is `q` and the attempts already counted or still in
flight stay within it. -/
def quotaOK (q : Int) (s : EmailWarmup) : Prop :=
  ∀ tc : IntervalTimer, s.emailIntervalId = some tc →
    tc.emailsToSend = q ∧ (s.dailyEmailCountSent : Int) + s.inFlight ≤ q

/-- Remaining send capacity of the armed interval (zero once disarmed). -/
def cap (q : Int) (s : EmailWarmup) : Int :=
  if s.emailIntervalId = none then 0
  else q - s.dailyEmailCountSent - s.inFlight

/-! ## Properties of the schedule builder -/

lemma scheduleLoop_shape (t i : Int) :
    ∀ (fuel : Nat) (w c : Int) (entries : List (Int × Int)) (w' c' : Int),
      scheduleLoop t i fuel w c = some (entries, w', c') →
      entries = (List.range entries.length).map
          (fun k : Nat => (w + (k : Int), c + (k : Int) * i)) ∧
      w' = w + entries.length ∧
      c' = c + entries.length * i ∧
      t < c' ∧
      ∀ e ∈ entries, e.2 ≤ t := by
  intro fuel
  induction fuel with
  | zero =>
    intro w c entries w' c' h
    simp [scheduleLoop] at h
  | succ fuel ih =>
    intro w c entries w' c' h
    by_cases hct : c ≤ t
    · simp only [scheduleLoop, if_pos hct] at h
      cases hrec : scheduleLoop t i fuel (w + 1) (c + i) with
      | none => rw [hrec] at h; simp at h
      | some res =>
        obtain ⟨rest, w2, c2⟩ := res
        rw [hrec] at h
        simp only [Option.some.injEq, Prod.mk.injEq] at h
        obtain ⟨he, hw, hc⟩ := h
        subst he; subst hw; subst hc
        obtain ⟨hshape, hw2, hc2, hlt, hvals⟩ := ih (w + 1) (c + i) rest w2 c2 hrec
        refine ⟨?_, ?_, ?_, hlt, ?_⟩
        · have hlen : ((w, c) :: rest).length = rest.length + 1 := rfl
          rw [hlen, List.range_succ_eq_map, List.map_cons, List.map_map]
          have h0 : (w + ((0 : Nat) : Int), c + ((0 : Nat) : Int) * i) = (w, c) := by
            simp
          rw [h0]
          congr 1
          conv_lhs => rw [hshape]
          apply List.map_congr_left
          intro k _
          simp only [Function.comp_apply, Prod.mk.injEq]
          constructor
          · push_cast; ring
          · push_cast; ring
        · rw [hw2]; simp only [List.length_cons]; push_cast; ring
        · rw [hc2]; simp only [List.length_cons]; push_cast; ring
        · intro e he
          rcases List.mem_cons.mp he with h1 | h1
          · rw [h1]; exact hct
          · exact hvals e h1
    · simp only [scheduleLoop, if_neg hct] at h
      simp only [Option.some.injEq, Prod.mk.injEq] at h
      obtain ⟨he, hw, hc⟩ := h
      subst he; subst hw; subst hc
      refine ⟨by simp, by simp, by simp, not_le.mp hct, by simp⟩

lemma scheduleLoop_isSome (t i : Int) (hi : 0 < i) :
    ∀ (fuel : Nat) (w c : Int), (t - c + 1).toNat + 1 ≤ fuel →
      (scheduleLoop t i fuel w c).isSome = true := by
  intro fuel
  induction fuel with
  | zero => intro w c h; omega
  | succ fuel ih =>
    intro w c h
    by_cases hct : c ≤ t
    · have hrec := ih (w + 1) (c + i) (by omega)
      simp only [scheduleLoop, if_pos hct]
      cases hx : scheduleLoop t i fuel (w + 1) (c + i) with
      | none => rw [hx] at hrec; simp at hrec
      | some res => obtain ⟨a, b, cc⟩ := res; simp
    · simp [scheduleLoop, if_neg hct]

/-- C1: for every valid ramp (startValue > 0, increment > 0, target ≥
startValue) `createWarmupSchedule` terminates and returns a schedule whose
keys are exactly the contiguous range 1..K for some K ≥ 1, whose quota
values are non-decreasing in the week number, and whose final value equals
the target exactly (clamped); concretely, `createWarmupSchedule(200, 200,
3000)` maps week 14 to 2800 and week 15 to 3000, and has no week 16. -/
theorem createWarmupSchedule_valid (s i t : Int)
    (hs : 0 < s) (hi : 0 < i) (hst : s ≤ t) :
    (∃ (K : Nat) (sched : List (Int × Int)),
      createWarmupSchedule ((t - s + 1).toNat + 1) s i t = some sched ∧
      1 ≤ K ∧
      sched.map Prod.fst = (List.range K).map (fun k : Nat => (k : Int) + 1) ∧
      List.Pairwise (· ≤ ·) (sched.map Prod.snd) ∧
      (sched.map Prod.snd).getLast? = some t) ∧
    (createWarmupSchedule 20 200 200 3000).map
        (fun l => (l.lookup 14, l.lookup 15, l.lookup 16)) =
      some (some 2800, some 3000, none) := by
  refine ⟨?_, by decide⟩
  have hsome := scheduleLoop_isSome t i hi ((t - s + 1).toNat + 1) 1 s (le_refl _)
  obtain ⟨⟨entries, w', c'⟩, hsl⟩ := Option.isSome_iff_exists.mp hsome
  obtain ⟨hshape, hw, hc, htlt, hvals⟩ := scheduleLoop_shape t i _ 1 s entries w' c' hsl
  have hn1 : 1 ≤ entries.length := by
    rcases Nat.eq_zero_or_pos entries.length with h0 | h1
    · exfalso
      rw [h0] at hc
      norm_num at hc
      omega
    · exact h1
  obtain ⟨m, hm⟩ : ∃ m, entries.length = m + 1 := ⟨entries.length - 1, by omega⟩
  have hkeys : entries.map Prod.fst =
      (List.range entries.length).map (fun k : Nat => (k : Int) + 1) := by
    conv_lhs => rw [hshape]
    rw [List.map_map]
    apply List.map_congr_left
    intro k _
    show (1 : Int) + (k : Int) = (k : Int) + 1
    ring
  have hvalsmap : entries.map Prod.snd =
      (List.range entries.length).map (fun k : Nat => s + (k : Int) * i) := by
    conv_lhs => rw [hshape]
    rw [List.map_map]
    apply List.map_congr_left
    intro k _
    rfl
  have hpw : List.Pairwise (· ≤ ·) (entries.map Prod.snd) := by
    rw [hvalsmap, List.pairwise_map]
    refine (List.pairwise_lt_range entries.length).imp ?_
    intro a b hab
    have hcast : (a : Int) ≤ (b : Int) := by exact_mod_cast Nat.le_of_lt hab
    have hmul := mul_le_mul_of_nonneg_right hcast (le_of_lt hi)
    linarith
  have hmemlast : (1 + (m : Int), s + (m : Int) * i) ∈ entries := by
    rw [hshape]
    exact List.mem_map_of_mem _ (List.mem_range.mpr (by omega))
  have hlastle : s + (m : Int) * i ≤ t := hvals _ hmemlast
  have hci : c' - i = s + (m : Int) * i := by
    rw [hc, hm]
    push_cast
    ring
  by_cases hcl : c' - i < t
  · refine ⟨entries.length + 1, entries ++ [(w', t)], ?_, by omega, ?_, ?_, ?_⟩
    · simp only [createWarmupSchedule, hsl, if_pos hcl]
    · rw [List.map_append, hkeys]
      have hw' : Prod.fst (w', t) = (entries.length : Int) + 1 := by
        simp only [hw]; ring
      rw [List.range_succ, List.map_append, List.map_cons, List.map_nil,
        List.map_cons, List.map_nil, hw']
    · rw [List.map_append, List.pairwise_append]
      refine ⟨hpw, by simp, ?_⟩
      intro x hx y hy
      simp only [List.map_cons, List.map_nil, List.mem_singleton] at hy
      subst hy
      obtain ⟨e, he, rfl⟩ := List.mem_map.mp hx
      exact hvals e he
    · rw [List.map_append, List.map_cons, List.map_nil]
      exact List.getLast?_concat _
  · have hceq : c' - i = t := le_antisymm (hci ▸ hlastle) (not_lt.mp hcl)
    refine ⟨entries.length, entries, ?_, hn1, hkeys, hpw, ?_⟩
    · simp only [createWarmupSchedule, hsl, if_neg hcl]
    · rw [hvalsmap, hm, List.range_succ, List.map_append, List.map_cons,
        List.map_nil, List.getLast?_concat]
      rw [← hceq, hci]

/-- C1 witness: the theorem applied at startValue 1, increment 1, target 2. -/
theorem createWarmupSchedule_valid_witness :
    (0 : Int) < 1 ∧ (0 : Int) < 1 ∧ (1 : Int) ≤ 2 ∧
    ((∃ (K : Nat) (sched : List (Int × Int)),
      createWarmupSchedule (((2 : Int) - 1 + 1).toNat + 1) 1 1 2 = some sched ∧
      1 ≤ K ∧
      sched.map Prod.fst = (List.range K).map (fun k : Nat => (k : Int) + 1) ∧
      List.Pairwise (· ≤ ·) (sched.map Prod.snd) ∧
      (sched.map Prod.snd).getLast? = some 2) ∧
    (createWarmupSchedule 20 200 200 3000).map
        (fun l => (l.lookup 14, l.lookup 15, l.lookup 16)) =
      some (some 2800, some 3000, none)) :=
  ⟨by decide, by decide, by decide,
    createWarmupSchedule_valid 1 1 2 (by decide) (by decide) (by decide)⟩

lemma scheduleLoop_nonpos_increment (t i : Int) (hi : i ≤ 0) :
    ∀ (fuel : Nat) (w c : Int), c ≤ t → scheduleLoop t i fuel w c = none := by
  intro fuel
  induction fuel with
  | zero => intro w c _; rfl
  | succ fuel ih =>
    intro w c hct
    simp only [scheduleLoop, if_pos hct]
    rw [ih (w + 1) (c + i) (by omega)]

/-- C2: contrary to the claim, `createWarmupSchedule` performs no input
validation at all: with a non-positive increment (failing input
`createWarmupSchedule(200, 0, 3000)`) the while-loop condition stays true
forever, so for every fuel the embedded loop is still running — the call
neither terminates nor throws (no `InvalidRampError` exists anywhere in the
sources). -/
theorem createWarmupSchedule_zero_increment_diverges :
    ∀ fuel : Nat, createWarmupSchedule fuel 200 0 3000 = none := by
  intro fuel
  unfold createWarmupSchedule
  rw [scheduleLoop_nonpos_increment 3000 0 (by decide) fuel 1 200 (by decide)]

/-! ## The week computation -/

lemma ediv_ediv_of_pos (a : Int) {b c : Int} (hb : 0 < b) (hc : 0 < c) :
    a / b / c = a / (b * c) := by
  have hbc : 0 < b * c := mul_pos hb hc
  have h1 := Int.emod_add_ediv a b
  have h2 := Int.emod_add_ediv (a / b) c
  have hr1 : 0 ≤ a % b := Int.emod_nonneg a (ne_of_gt hb)
  have hr1b : a % b < b := Int.emod_lt_of_pos a hb
  have hr2 : 0 ≤ a / b % c := Int.emod_nonneg _ (ne_of_gt hc)
  have hr2b : a / b % c < c := Int.emod_lt_of_pos _ hc
  have key : (a % b + b * (a / b % c)) + b * c * (a / b / c) = a := by
    linear_combination h1 + b * h2
  have hnn : 0 ≤ a % b + b * (a / b % c) := by
    have := mul_nonneg (le_of_lt hb) hr2
    linarith
  have hlt : a % b + b * (a / b % c) < b * c := by
    have hstep : a / b % c ≤ c - 1 := by omega
    have := mul_le_mul_of_nonneg_left hstep (le_of_lt hb)
    nlinarith
  have huniq := (Int.ediv_emod_unique hbc).mpr ⟨key, hnn, hlt⟩
  exact huniq.1.symm

/-- C3 counterexample: at startDate = 0 and now = exactly one day later,
`getCurrentWeek` (which divides the elapsed whole days by 7 before adding
one) returns 1, while the claimed formula floor((now − start) / 1 day) + 1
returns 2. -/
theorem getCurrentWeek_ne_claimedWeekFormula :
    getCurrentWeek 0 86400000 ≠ claimedWeekFormula 0 86400000 := by decide

/-- C3 amended: the week used for the quota lookup equals
floor((now − startDate) / 7 days) + 1, i.e. the elapsed whole days divided
by seven; in particular it is 1 at the start instant and 2 after seven full
days. -/
theorem getCurrentWeek_floor_seven_days (startMs nowMs : Int) :
    getCurrentWeek startMs nowMs = (nowMs - startMs).fdiv (7 * msPerDay) + 1 ∧
    getCurrentWeek nowMs nowMs = 1 ∧
    getCurrentWeek startMs (startMs + 7 * msPerDay) = 2 := by
  refine ⟨?_, ?_, ?_⟩
  · unfold getCurrentWeek
    congr 1
    rw [Int.fdiv_eq_ediv _ (by decide : (0 : Int) ≤ msPerDay),
      Int.fdiv_eq_ediv _ (by decide : (0 : Int) ≤ 7),
      Int.fdiv_eq_ediv _ (by decide : (0 : Int) ≤ 7 * msPerDay),
      ediv_ediv_of_pos _ (by decide : (0 : Int) < msPerDay) (by decide : (0 : Int) < 7),
      Int.mul_comm]
  · unfold getCurrentWeek
    rw [Int.sub_self]
    decide
  · unfold getCurrentWeek
    rw [(by ring : startMs + 7 * msPerDay - startMs = 7 * msPerDay)]
    decide

/-! ## The per-email delay -/

/-- C4: whenever the day's quota Q is positive, `scheduleEmailsForToday`
arms the repeating tick timer with per-email delay max(floor(M / Q), 1000)
milliseconds, where M is the time remaining from the current instant to the
next local midnight. -/
theorem scheduleEmailsForToday_delay (s : EmailWarmup) (nowMs : Int)
    (hq : 0 < getEmailsPerDay s.warmupSchedule (getCurrentWeek s.startDate nowMs)) :
    (s.scheduleEmailsForToday nowMs).emailIntervalId =
      some ⟨getEmailsPerDay s.warmupSchedule (getCurrentWeek s.startDate nowMs),
        max ((nextMidnightMs nowMs - nowMs).fdiv
          (getEmailsPerDay s.warmupSchedule (getCurrentWeek s.startDate nowMs))) 1000⟩ := by
  simp only [EmailWarmup.scheduleEmailsForToday]
  rw [if_neg (not_le.mpr hq)]

/-- C4 witness: a one-entry schedule with quota 2 at the start instant. -/
theorem scheduleEmailsForToday_delay_witness :
    (0 : Int) < getEmailsPerDay [(1, 2)] (getCurrentWeek 0 0) ∧
    (EmailWarmup.scheduleEmailsForToday
        { warmupSchedule := [(1, 2)], startDate := 0 } 0).emailIntervalId =
      some ⟨getEmailsPerDay [(1, 2)] (getCurrentWeek 0 0),
        max ((nextMidnightMs 0 - 0).fdiv
          (getEmailsPerDay [(1, 2)] (getCurrentWeek 0 0))) 1000⟩ :=
  ⟨by decide,
    scheduleEmailsForToday_delay { warmupSchedule := [(1, 2)], startDate := 0 } 0
      (by decide)⟩

/-! ## Recipient rotation -/

lemma setOfList_three (a b c : String) (hab : a ≠ b) (hac : a ≠ c)
    (hbc : b ≠ c) : setOfList [a, b, c] = [a, b, c] := by
  have hba := hab.symm
  have hca := hac.symm
  have hcb := hbc.symm
  simp [setOfList, insertUnique, List.mem_singleton, List.mem_cons, hba, hca, hcb]

lemma insertUnique_nodup (acc : List String) (x : String) (h : acc.Nodup) :
    (insertUnique acc x).Nodup := by
  unfold insertUnique
  split
  · exact h
  · rename_i hx
    simp [List.nodup_append, h, hx]

lemma setOfList_nodup (l : List String) : (setOfList l).Nodup := by
  suffices h : ∀ acc : List String, acc.Nodup → (l.foldl insertUnique acc).Nodup by
    exact h [] (by simp)
  induction l with
  | nil => intro acc h; exact h
  | cons x xs ih => intro acc h; exact ih _ (insertUnique_nodup acc x h)

lemma runNext_from_cursor (rs : List String) :
    ∀ (k cur : Nat), cur + k = rs.length →
      runNext ⟨rs, cur⟩ k = (rs.drop cur).map some := by
  intro k
  induction k with
  | zero =>
    intro cur h
    have hcur : cur = rs.length := by omega
    subst hcur
    simp [runNext, List.drop_length]
  | succ k ih =>
    intro cur h
    have hcur : cur < rs.length := by omega
    simp only [runNext, RecipientManager.getNextRecipient,
      List.getElem?_eq_getElem hcur]
    rw [ih (cur + 1) (by omega), List.drop_eq_getElem_cons hcur, List.map_cons]

/-- C5: a RecipientManager over three distinct recipients [a, b, c] yields
a, b, c on the first three calls and a again on the fourth; in general a
freshly constructed manager holds the deduplicated recipients without
repetition, and one full cycle of calls yields exactly that stable order. -/
theorem getNextRecipient_round_robin (a b c : String) (l : List String)
    (m : RecipientManager) (hab : a ≠ b) (hac : a ≠ c) (hbc : b ≠ c)
    (hm : RecipientManager.make l = some m) :
    (∃ m3, RecipientManager.make [a, b, c] = some m3 ∧
      runNext m3 4 = [some a, some b, some c, some a]) ∧
    m.recipients.Nodup ∧
    runNext m m.recipients.length = m.recipients.map some := by
  constructor
  · refine ⟨⟨[a, b, c], 0⟩, ?_, ?_⟩
    · simp [RecipientManager.make, setOfList_three a b c hab hac hbc]
    · rfl
  · have hmk : m = ⟨setOfList l, 0⟩ := by
      unfold RecipientManager.make at hm
      split at hm
      · exact absurd hm (by simp)
      · exact (Option.some.inj hm).symm
    subst hmk
    refine ⟨setOfList_nodup l, ?_⟩
    have hrun := runNext_from_cursor (setOfList l) (setOfList l).length 0 (by omega)
    simpa using hrun

/-- C5 witness: the theorem applied to the recipients "a", "b", "c" and to
the one-element list ["x"]. -/
theorem getNextRecipient_round_robin_witness :
    ("a" : String) ≠ "b" ∧ ("a" : String) ≠ "c" ∧ ("b" : String) ≠ "c" ∧
    RecipientManager.make ["x"] = some (RecipientManager.mk ["x"] 0) ∧
    ((∃ m3, RecipientManager.make ["a", "b", "c"] = some m3 ∧
      runNext m3 4 = [some "a", some "b", some "c", some "a"]) ∧
    (RecipientManager.mk ["x"] 0).recipients.Nodup ∧
    runNext (RecipientManager.mk ["x"] 0)
        (RecipientManager.mk ["x"] 0).recipients.length =
      (RecipientManager.mk ["x"] 0).recipients.map some) :=
  ⟨by decide, by decide, by decide, by decide,
    getNextRecipient_round_robin "a" "b" "c" ["x"] (RecipientManager.mk ["x"] 0)
      (by decide) (by decide) (by decide) (by decide)⟩

/-- C6: after every recipient has been removed, `getNextRecipient` does not
fail: the reset iterator is immediately done and the method returns the JS
`undefined` (modelled `none`) as a normal return value — no
`EmptyRecipientsError` (the claimed failure, which exists nowhere in the
sources) is raised; the second conjunct shows the underlying set really is
empty at that call. -/
theorem getNextRecipient_empty_returns_undefined :
    (RecipientManager.make ["a"]).map (fun m =>
      ((m.removeRecipient "a").getNextRecipient).1) = some none ∧
    (RecipientManager.make ["a"]).map (fun m =>
      (m.removeRecipient "a").recipients) = some [] := by
  constructor <;> rfl

/-! ## The event-loop semantics: stop, failure absorption, serialization -/

lemma run_cons (e : Ev) (evs : List Ev) (s : EmailWarmup) :
    run (e :: evs) s = run evs (step e s) := rfl

lemma run_quiescent (evs : List Ev) :
    ∀ s : EmailWarmup, s.emailIntervalId = none → s.nextDayTimeoutId = none →
      (run evs s).emailIntervalId = none ∧ (run evs s).nextDayTimeoutId = none ∧
      (run evs s).mailerCalls = s.mailerCalls := by
  induction evs with
  | nil => intro s h1 h2; exact ⟨h1, h2, rfl⟩
  | cons e evs ih =>
    intro s h1 h2
    rw [run_cons]
    have hpres : (step e s).emailIntervalId = none ∧
        (step e s).nextDayTimeoutId = none ∧
        (step e s).mailerCalls = s.mailerCalls := by
      cases e with
      | tickFire nowMs => simp [step, h1, h2]
      | rolloverFire nowMs => simp [step, h1, h2]
      | sendComplete f =>
        cases hn : s.inFlight with
        | zero => simp [step, hn, h1, h2]
        | succ n => simp [step, hn, h1, h2]
    obtain ⟨p1, p2, p3⟩ := hpres
    obtain ⟨q1, q2, q3⟩ := ih (step e s) p1 p2
    exact ⟨q1, q2, q3.trans p3⟩

lemma stop_isRunning (s : EmailWarmup) : s.stop.isRunning = false := by
  unfold EmailWarmup.stop
  split
  · rename_i h; exact h
  · rfl

lemma stop_of_not_running (s : EmailWarmup) (h : s.isRunning = false) :
    s.stop = s := by
  unfold EmailWarmup.stop
  rw [if_pos h]

/-- C7: after `stop()` both timer handles are cleared, so no sequence of
timer or completion events can ever invoke the mailer again on this
instance, and calling `stop()` a second time is a no-op.  The hypothesis
records the lifecycle fact that timers are only armed while running. -/
theorem stop_no_further_mailer (s : EmailWarmup) (evs : List Ev)
    (hinv : s.isRunning = false →
      s.emailIntervalId = none ∧ s.nextDayTimeoutId = none) :
    (run evs s.stop).mailerCalls = s.stop.mailerCalls ∧
    s.stop.stop = s.stop := by
  have htimers : s.stop.emailIntervalId = none ∧ s.stop.nextDayTimeoutId = none := by
    unfold EmailWarmup.stop
    split
    · rename_i h; exact hinv h
    · simp
  exact ⟨(run_quiescent evs s.stop htimers.1 htimers.2).2.2,
    stop_of_not_running s.stop (stop_isRunning s)⟩

/-- C7 witness: a running scheduler with both timers armed, stopped, then
subjected to a tick, a completion and a rollover event. -/
theorem stop_no_further_mailer_witness :
    (stopDemo.isRunning = false →
      stopDemo.emailIntervalId = none ∧ stopDemo.nextDayTimeoutId = none) ∧
    ((run [Ev.tickFire 7, Ev.sendComplete true, Ev.rolloverFire 9]
        stopDemo.stop).mailerCalls = stopDemo.stop.mailerCalls ∧
      stopDemo.stop.stop = stopDemo.stop) :=
  ⟨by decide,
    stop_no_further_mailer stopDemo
      [Ev.tickFire 7, Ev.sendComplete true, Ev.rolloverFire 9] (by decide)⟩

/-- C8: the resolution of a send attempt has the same effect whether the
mailer promise rejected or fulfilled — the rejection is caught and logged
inside `sendRandomEmail` — so a failed attempt does not stop the day's
cadence (the interval stays as it was), does not abort the loop (the
rollover handle stays as it was), and still increments
`dailyEmailCountSent` exactly as a success does. -/
theorem failed_send_absorbed (s : EmailWarmup) (h : s.inFlight ≠ 0) :
    step (Ev.sendComplete true) s = step (Ev.sendComplete false) s ∧
    (step (Ev.sendComplete true) s).dailyEmailCountSent =
      s.dailyEmailCountSent + 1 ∧
    (step (Ev.sendComplete true) s).emailIntervalId = s.emailIntervalId ∧
    (step (Ev.sendComplete true) s).nextDayTimeoutId = s.nextDayTimeoutId := by
  cases hn : s.inFlight with
  | zero => exact absurd hn h
  | succ n => refine ⟨?_, ?_, ?_, ?_⟩ <;> simp [step, hn]

/-- C8 witness: a state with one send in flight. -/
theorem failed_send_absorbed_witness :
    absorbDemo.inFlight ≠ 0 ∧
    (step (Ev.sendComplete true) absorbDemo =
        step (Ev.sendComplete false) absorbDemo ∧
      (step (Ev.sendComplete true) absorbDemo).dailyEmailCountSent =
        absorbDemo.dailyEmailCountSent + 1 ∧
      (step (Ev.sendComplete true) absorbDemo).emailIntervalId =
        absorbDemo.emailIntervalId ∧
      (step (Ev.sendComplete true) absorbDemo).nextDayTimeoutId =
        absorbDemo.nextDayTimeoutId) :=
  ⟨by decide, failed_send_absorbed absorbDemo (by decide)⟩

/-- C9 counterexample: Node's `setInterval` does not await the async tick
callback, so a second tick may fire while the first send is still in
flight.  From a day-start state whose armed interval has quota 1, the trace
[tick, tick] — the second tick firing before the first send resolves —
invokes the mailer twice: more than the day's quota of one attempt, so
ticks are not strictly sequential and the at-most-N bound fails. -/
theorem tick_overlap_exceeds_quota :
    overlapDemo.emailIntervalId = some ⟨1, 1000⟩ ∧
    overlapDemo.dailyEmailCountSent = 0 ∧ overlapDemo.mailerCalls = 0 ∧
    (run [Ev.tickFire 0, Ev.tickFire 0] overlapDemo).mailerCalls = 2 := by
  refine ⟨rfl, rfl, rfl, rfl⟩

lemma scheduleNextDay_fields (s : EmailWarmup) (nowMs : Int) :
    (s.scheduleNextDay nowMs).emailIntervalId = s.emailIntervalId ∧
    (s.scheduleNextDay nowMs).mailerCalls = s.mailerCalls ∧
    (s.scheduleNextDay nowMs).dailyEmailCountSent = s.dailyEmailCountSent ∧
    (s.scheduleNextDay nowMs).inFlight = s.inFlight := by
  unfold EmailWarmup.scheduleNextDay
  split
  · exact ⟨rfl, rfl, rfl, rfl⟩
  · exact ⟨rfl, rfl, rfl, rfl⟩

lemma serial_step_bound (q : Int) (e : Ev) (s : EmailWarmup)
    (hok : quotaOK q s)
    (hser : (match e with
             | Ev.tickFire _ => s.inFlight == 0
             | Ev.sendComplete _ => true
             | Ev.rolloverFire _ => false) = true) :
    quotaOK q (step e s) ∧
    ((step e s).mailerCalls : Int) + cap q (step e s) ≤
      (s.mailerCalls : Int) + cap q s := by
  cases e with
  | rolloverFire nowMs => simp at hser
  | sendComplete f =>
    cases hn : s.inFlight with
    | zero =>
      have hstep : step (Ev.sendComplete f) s = s := by simp [step, hn]
      rw [hstep]
      exact ⟨hok, le_refl _⟩
    | succ n =>
      have hInt : (step (Ev.sendComplete f) s).emailIntervalId = s.emailIntervalId := by
        simp [step, hn]
      have hMail : (step (Ev.sendComplete f) s).mailerCalls = s.mailerCalls := by
        simp [step, hn]
      have hCnt : (step (Ev.sendComplete f) s).dailyEmailCountSent =
          s.dailyEmailCountSent + 1 := by
        simp [step, hn]
      have hInF : (step (Ev.sendComplete f) s).inFlight = n := by
        simp [step, hn]
      constructor
      · intro tc htc
        rw [hInt] at htc
        obtain ⟨h1, h2⟩ := hok tc htc
        refine ⟨h1, ?_⟩
        rw [hCnt, hInF]
        rw [hn] at h2
        push_cast at h2 ⊢
        linarith
      · unfold cap
        rw [hInt, hMail, hCnt, hInF, hn]
        by_cases hnone : s.emailIntervalId = none
        · rw [if_pos hnone, if_pos hnone]
        · rw [if_neg hnone, if_neg hnone]
          push_cast
          linarith
  | tickFire nowMs =>
    have hfl : s.inFlight = 0 := by simpa using hser
    cases hint : s.emailIntervalId with
    | none =>
      have hstep : step (Ev.tickFire nowMs) s = s := by simp [step, hint]
      rw [hstep]
      exact ⟨hok, le_refl _⟩
    | some tc =>
      obtain ⟨htq, hsum⟩ := hok tc hint
      by_cases hge : (s.dailyEmailCountSent : Int) ≥ tc.emailsToSend
      · have hstep : step (Ev.tickFire nowMs) s =
            EmailWarmup.scheduleNextDay { s with emailIntervalId := none } nowMs := by
          simp [step, hint, hge]
        obtain ⟨f1, f2, f3, f4⟩ :=
          scheduleNextDay_fields { s with emailIntervalId := none } nowMs
        have hInt : (step (Ev.tickFire nowMs) s).emailIntervalId = none := by
          rw [hstep, f1]
        have hMail : (step (Ev.tickFire nowMs) s).mailerCalls = s.mailerCalls := by
          rw [hstep, f2]
        constructor
        · intro tc' htc'
          rw [hInt] at htc'
          simp at htc'
        · unfold cap
          rw [hInt, hMail, if_pos rfl, if_neg (by rw [hint]; simp)]
          omega
      · have hInt : (step (Ev.tickFire nowMs) s).emailIntervalId = s.emailIntervalId := by
          simp [step, hint, hge]
        have hMail : (step (Ev.tickFire nowMs) s).mailerCalls = s.mailerCalls + 1 := by
          simp [step, hint, hge]
        have hCnt : (step (Ev.tickFire nowMs) s).dailyEmailCountSent =
            s.dailyEmailCountSent := by
          simp [step, hint, hge]
        have hInF : (step (Ev.tickFire nowMs) s).inFlight = s.inFlight + 1 := by
          simp [step, hint, hge]
        constructor
        · intro tc' htc'
          rw [hInt, hint] at htc'
          obtain rfl : tc = tc' := Option.some.inj htc'
          refine ⟨htq, ?_⟩
          rw [hCnt, hInF, htq] at *
          push_cast at *
          omega
        · unfold cap
          rw [hInt, hMail, hCnt, hInF]
          rw [if_neg (by rw [hint]; simp), if_neg (by rw [hint]; simp)]
          push_cast
          linarith

lemma serialRun_bound (q : Int) :
    ∀ (evs : List Ev) (s : EmailWarmup), serialRun s evs = true → quotaOK q s →
      quotaOK q (run evs s) ∧
      ((run evs s).mailerCalls : Int) + cap q (run evs s) ≤
        (s.mailerCalls : Int) + cap q s := by
  intro evs
  induction evs with
  | nil => intro s _ hok; exact ⟨hok, le_refl _⟩
  | cons e evs ih =>
    intro s hser hok
    simp only [serialRun, Bool.and_eq_true] at hser
    obtain ⟨hse, hrest⟩ := hser
    obtain ⟨hok1, hle1⟩ := serial_step_bound q e s hok hse
    obtain ⟨hok2, hle2⟩ := ih (step e s) hrest hok1
    rw [run_cons]
    exact ⟨hok2, le_trans hle2 hle1⟩

/-- C9 amended: ticks are not serialized by the code — the interval
callback is async and `setInterval` keeps firing while a send is in flight,
so the mailer can be invoked more than quota-many times in a day (see the
counterexample); the at-most-quota bound does hold for exactly the
serialized executions, i.e. those in which every tick fires only after all
previous sends have completed. -/
theorem serialized_ticks_at_most_quota (s : EmailWarmup) (q d : Int)
    (evs : List Ev) (hq : 0 ≤ q)
    (harm : s.emailIntervalId = some ⟨q, d⟩)
    (hcnt : s.dailyEmailCountSent = 0) (hfl : s.inFlight = 0)
    (hser : serialRun s evs = true) :
    ((run evs s).mailerCalls : Int) ≤ (s.mailerCalls : Int) + q := by
  have hok : quotaOK q s := by
    intro tc htc
    rw [harm] at htc
    obtain rfl : (⟨q, d⟩ : IntervalTimer) = tc := Option.some.inj htc
    exact ⟨rfl, by rw [hcnt, hfl]; simpa using hq⟩
  obtain ⟨hokf, hle⟩ := serialRun_bound q evs s hser hok
  have hcs : cap q s = q := by
    rw [cap, if_neg (by rw [harm]; simp), hcnt, hfl]
    ring
  have hcf : 0 ≤ cap q (run evs s) := by
    rw [cap]
    split
    · exact le_refl 0
    · rename_i hne
      cases hx : (run evs s).emailIntervalId with
      | none => exact absurd hx hne
      | some tc =>
        obtain ⟨_, hsum⟩ := hokf tc hx
        omega
  rw [hcs] at hle
  omega

/-- C9 amended witness: quota 1, one serialized tick, its completion, and
one further tick that observes the exhausted quota. -/
theorem serialized_ticks_at_most_quota_witness :
    (0 : Int) ≤ 1 ∧
    overlapDemo.emailIntervalId = some ⟨1, 1000⟩ ∧
    overlapDemo.dailyEmailCountSent = 0 ∧ overlapDemo.inFlight = 0 ∧
    serialRun overlapDemo
      [Ev.tickFire 0, Ev.sendComplete false, Ev.tickFire 5] = true ∧
    ((run [Ev.tickFire 0, Ev.sendComplete false, Ev.tickFire 5]
        overlapDemo).mailerCalls : Int) ≤ (overlapDemo.mailerCalls : Int) + 1 :=
  ⟨by decide, rfl, rfl, rfl, by decide,
    serialized_ticks_at_most_quota overlapDemo 1 1000
      [Ev.tickFire 0, Ev.sendComplete false, Ev.tickFire 5]
      (by decide) rfl rfl rfl (by decide)⟩

/-! ## start() with a past day-of-month -/

/-- C10: calling `start()` on a stopped scheduler with loaded recipients
whose start date has a smaller day-of-month than today sets `isRunning`
before the past-date check, then returns early: no timer is armed and
nothing is scheduled.  Every later `start()` hits the `isRunning` guard and
returns the state unchanged, and with no timer armed no event can ever
invoke the mailer — the instance is stuck until `stop()` clears the flag. -/
theorem start_past_date_stuck (s : EmailWarmup) (rec rec2 : Bool)
    (startDay nowDay nowMs d1 d2 ms2 : Int) (evs : List Ev)
    (hrun : s.isRunning = false)
    (hmgr : s.recipientManager.isNone = false)
    (hday : startDay < nowDay)
    (hint : s.emailIntervalId = none)
    (htmo : s.nextDayTimeoutId = none) :
    EmailWarmup.start s rec startDay nowDay nowMs =
      StartResult.ok { s with isRunning := true } ∧
    ({ s with isRunning := true } : EmailWarmup).emailIntervalId = none ∧
    ({ s with isRunning := true } : EmailWarmup).nextDayTimeoutId = none ∧
    EmailWarmup.start { s with isRunning := true } rec2 d1 d2 ms2 =
      StartResult.ok { s with isRunning := true } ∧
    (run evs { s with isRunning := true }).mailerCalls = s.mailerCalls := by
  refine ⟨?_, hint, htmo, ?_, ?_⟩
  · unfold EmailWarmup.start
    rw [if_neg (by rw [hrun]; simp), if_neg (by rw [hmgr]; simp), if_pos hday]
  · unfold EmailWarmup.start
    rw [if_pos (by rfl)]
  · have h1 : ({ s with isRunning := true } : EmailWarmup).emailIntervalId = none :=
      hint
    have h2 : ({ s with isRunning := true } : EmailWarmup).nextDayTimeoutId = none :=
      htmo
    exact (run_quiescent evs _ h1 h2).2.2

/-- C10 witness: a ready scheduler started with startDay 5 against nowDay
20, followed by a second start and a tick, a completion and a rollover. -/
theorem start_past_date_stuck_witness :
    readyDemo.isRunning = false ∧
    readyDemo.recipientManager.isNone = false ∧
    (5 : Int) < 20 ∧
    readyDemo.emailIntervalId = none ∧
    readyDemo.nextDayTimeoutId = none ∧
    (EmailWarmup.start readyDemo true 5 20 0 =
        StartResult.ok { readyDemo with isRunning := true } ∧
      ({ readyDemo with isRunning := true } : EmailWarmup).emailIntervalId = none ∧
      ({ readyDemo with isRunning := true } : EmailWarmup).nextDayTimeoutId = none ∧
      EmailWarmup.start { readyDemo with isRunning := true } false 21 22 9 =
        StartResult.ok { readyDemo with isRunning := true } ∧
      (run [Ev.tickFire 3, Ev.sendComplete false, Ev.rolloverFire 4]
          { readyDemo with isRunning := true }).mailerCalls =
        readyDemo.mailerCalls) :=
  ⟨rfl, rfl, by decide, rfl, rfl,
    start_past_date_stuck readyDemo true false 5 20 0 21 22 9
      [Ev.tickFire 3, Ev.sendComplete false, Ev.rolloverFire 4]
      rfl rfl (by decide) rfl rfl⟩

end ProxyWarmup
